import Mathlib

set_option maxHeartbeats 1000000

/-!
Verification development for the insideredge scraper core
(src/scraper/scrape.py).  The Python code is shallowly embedded:

* a CSV/HTML record becomes the `Trade` structure (all fields are the
  raw strings the Python dicts carry, `cluster_buy` is the Bool flag);
* Python string comparison is code-point lexicographic comparison,
  embedded as `pyStrLt` / `pyStrLe` on `String.data`;
* `float` results are embedded as `PyFloat` (exact rationals for finite
  values, plus the inf / nan special values; decimal literals are kept
  exact instead of being rounded to binary, which agrees with Python on
  every integral value the claims mention; overflow of huge exponents
  to inf is not modelled);
* `datetime.strptime` for the formats the code uses is embedded as an
  explicit scanner that mirrors the CPython `_strptime` regular
  expressions (`%Y` exactly four digits, `%m`/`%d`/`%H`/`%M`/`%S` one or
  two digits with the documented value ranges) followed by the
  `datetime` constructor validity check; dates are compared through the
  proleptic Gregorian ordinal `toOrdinal`, which equals Python
  `date.toordinal`;
* the mutating cluster pass is embedded as a pure recomputation: the
  Python code partitions records by ticker, and the marking of a record
  depends only on the immutable fields (ticker, trade_date,
  insider_name) of the records in its own ticker group, so each output
  record equals the input record with its flag or-ed with the mark
  derived from its group (`applyFlag`);
* the history CSV is embedded as the list of its data rows in append
  order (a missing file and an empty file both read back as no rows,
  exactly as `load_existing_csv` treats them);
* the file-system effect of `save_latest_json` is embedded as the trace
  of operations it performs (`save_latest_json_ops`) over an abstract
  path-to-contents map, which is what the atomicity claim is about.
-/

/-- One observed purchase event, the record shape of scrape.py
(the 13 CSV_FIELDNAMES columns). -/
structure Trade where
  filing_date : String
  trade_date : String
  ticker : String
  company : String
  insider_name : String
  title : String
  trade_type : String
  price : String
  qty : String
  owned : String
  delta_own : String
  value : String
  cluster_buy : Bool
deriving DecidableEq

/-- MIN_TRADE_VALUE from scrape.py. -/
def MIN_TRADE_VALUE : Nat := 50000

/-- CLUSTER_WINDOW_DAYS from scrape.py. -/
def CLUSTER_WINDOW_DAYS : Nat := 14

/-- CLUSTER_MIN_INSIDERS from scrape.py. -/
def CLUSTER_MIN_INSIDERS : Nat := 2

/-- INT32_MAX, the overflow sentinel from save_latest_json. -/
def INT32_MAX : Nat := 2147483647

/-- Code-point lexicographic comparison of character lists: the order
Python uses on str. -/
def listLexLt : List Char → List Char → Bool
  | _, [] => false
  | [], _ :: _ => true
  | a :: as, b :: bs =>
    if a.toNat < b.toNat then true
    else if b.toNat < a.toNat then false
    else listLexLt as bs

/-- Python `a < b` on strings. -/
def pyStrLt (a b : String) : Bool := listLexLt a.data b.data

/-- Python `a <= b` on strings (total order, so `a <= b` is `not (b < a)`). -/
def pyStrLe (a b : String) : Bool := !(pyStrLt b a)

/-- ASCII whitespace, the characters `str.strip()` and the regex class
`\s` remove in the inputs this program sees (non-ASCII whitespace is not
modelled). -/
def isPySpace (c : Char) : Bool :=
  c == ' ' || c == '\t' || c == '\n' || c == '\r' || c == '\x0B' || c == '\x0C'

/-- Python `s.strip()`. -/
def pyStrip (s : String) : String :=
  ⟨((s.data.dropWhile isPySpace).reverse.dropWhile isPySpace).reverse⟩

/-- clean_number from scrape.py: `re.sub(r"[$,\s%+]", "", text).strip()`. -/
def clean_number (s : String) : String :=
  pyStrip ⟨s.data.filter (fun c => !(c == '$' || c == ',' || c == '%' || c == '+' || isPySpace c))⟩

/-- The result type of Python `float`: a finite value (kept as an exact
rational) or one of the special values. -/
inductive PyFloat where
  | finite (q : ℚ)
  | inf
  | negInf
  | nan
deriving DecidableEq

/-- Numeric value of an ASCII digit character. -/
def digitVal (c : Char) : Nat := c.toNat - 48

/-- Value of a list of ASCII digits read in base 10. -/
def digitsVal (cs : List Char) : Nat := cs.foldl (fun a c => 10 * a + digitVal c) 0

/-- Helper for `underscoresOk`: every underscore must sit between two
digits (PEP 515, as enforced by float()). -/
def underscoresOkAux (prev : Char) : List Char → Bool
  | [] => true
  | c :: rest =>
    if c == '_' then
      (prev.isDigit && (match rest with | d :: _ => d.isDigit | [] => false))
        && underscoresOkAux c rest
    else underscoresOkAux c rest

/-- Checks the underscore placement rule of Python numeric strings. -/
def underscoresOk : List Char → Bool
  | [] => true
  | c :: rest => (!(c == '_')) && underscoresOkAux c rest

/-- Exponent digits of a float literal: one or more digits, consuming
the whole remaining input. -/
def parseExpDigits (q : ℚ) (neg : Bool) (cs : List Char) : Option ℚ :=
  let ds := cs.takeWhile Char.isDigit
  let rest := cs.dropWhile Char.isDigit
  if ds.isEmpty || !rest.isEmpty then none
  else some (if neg then q / (10 : ℚ) ^ digitsVal ds else q * (10 : ℚ) ^ digitsVal ds)

/-- Optional exponent part of a float literal (input already lowercased). -/
def parseExpPart (q : ℚ) : List Char → Option ℚ
  | [] => some q
  | c :: r1 =>
    if c == 'e' then
      match r1 with
      | '+' :: r2 => parseExpDigits q false r2
      | '-' :: r2 => parseExpDigits q true r2
      | r2 => parseExpDigits q false r2
    else none

/-- Mantissa of a float literal: digits, optionally with a single point,
with at least one digit present. Returns the value and the unconsumed
rest. -/
def parseMantissa (cs : List Char) : Option (ℚ × List Char) :=
  let ip := cs.takeWhile Char.isDigit
  let r1 := cs.dropWhile Char.isDigit
  match r1 with
  | '.' :: r2 =>
    let fp := r2.takeWhile Char.isDigit
    let r3 := r2.dropWhile Char.isDigit
    if ip.isEmpty && fp.isEmpty then none
    else some ((digitsVal ip : ℚ) + (digitsVal fp : ℚ) / (10 : ℚ) ^ fp.length, r3)
  | _ => if ip.isEmpty then none else some ((digitsVal ip : ℚ), r1)

/-- Python `float(s)` on an already whitespace-free string: optional
sign, the inf / infinity / nan words (case-insensitive), or a decimal
literal with optional exponent and PEP 515 underscores. `none` is the
ValueError case. -/
def pyFloatOfString (s : String) : Option PyFloat :=
  let cs0 := s.data.map Char.toLower
  let signed : Bool × List Char :=
    match cs0 with
    | '+' :: r => (false, r)
    | '-' :: r => (true, r)
    | r => (false, r)
  let neg := signed.1
  let cs1 := signed.2
  if cs1 == ['i', 'n', 'f'] || cs1 == ['i', 'n', 'f', 'i', 'n', 'i', 't', 'y'] then
    some (if neg then PyFloat.negInf else PyFloat.inf)
  else if cs1 == ['n', 'a', 'n'] then some PyFloat.nan
  else if !underscoresOk cs1 then none
  else
    match parseMantissa (cs1.filter (fun c => !(c == '_'))) with
    | none => none
    | some (q, rest) =>
      match parseExpPart q rest with
      | none => none
      | some v => some (PyFloat.finite (if neg then -v else v))

/-- parse_value from scrape.py: `float(clean_number(text))`, with 0.0
returned on any parse failure. -/
def parse_value (s : String) : PyFloat :=
  match pyFloatOfString (clean_number s) with
  | some v => v
  | none => PyFloat.finite 0

/-- Python `a <= b` on floats (nan incomparable). -/
def pyFloatLe : PyFloat → PyFloat → Bool
  | .nan, _ => false
  | _, .nan => false
  | .negInf, _ => true
  | _, .inf => true
  | .finite a, .finite b => decide (a ≤ b)
  | .inf, .finite _ => false
  | .inf, .negInf => false
  | .finite _, .negInf => false

/-- Python `a < b` on floats (nan incomparable). -/
def pyFloatLt : PyFloat → PyFloat → Bool
  | .nan, _ => false
  | _, .nan => false
  | .finite a, .finite b => decide (a < b)
  | .inf, _ => false
  | .negInf, .negInf => false
  | .negInf, _ => true
  | .finite _, .inf => true
  | .finite _, .negInf => false

/-- ASCII digit character for a value below ten. -/
def digitChar : Nat → Char
  | 0 => '0' | 1 => '1' | 2 => '2' | 3 => '3' | 4 => '4'
  | 5 => '5' | 6 => '6' | 7 => '7' | 8 => '8' | 9 => '9'
  | _ => '?'

/-- Gregorian leap-year test, as in Python datetime. -/
def isLeap (y : Nat) : Bool := (y % 4 == 0 && y % 100 != 0) || y % 400 == 0

/-- Length of month m (1-12) in a (non-)leap year. -/
def monthLen (leap : Bool) (m : Nat) : Nat :=
  match m with
  | 1 => 31 | 2 => if leap then 29 else 28 | 3 => 31 | 4 => 30 | 5 => 31 | 6 => 30
  | 7 => 31 | 8 => 31 | 9 => 30 | 10 => 31 | 11 => 30 | 12 => 31 | _ => 0

/-- Days in the year strictly before month m (1-12); 13 and above give
the year length. -/
def monthOff (leap : Bool) (m : Nat) : Nat :=
  match m with
  | 1 => 0 | 2 => 31
  | 3 => if leap then 60 else 59
  | 4 => if leap then 91 else 90
  | 5 => if leap then 121 else 120
  | 6 => if leap then 152 else 151
  | 7 => if leap then 182 else 181
  | 8 => if leap then 213 else 212
  | 9 => if leap then 244 else 243
  | 10 => if leap then 274 else 273
  | 11 => if leap then 305 else 304
  | 12 => if leap then 335 else 334
  | _ => if leap then 366 else 365

/-- Days before January 1 of year y in the proleptic Gregorian
calendar (year 1 gives 0), as in Python date.toordinal. -/
def daysBeforeYear (y : Nat) : Nat :=
  365 * (y - 1) + ((y - 1) / 4 - (y - 1) / 100 + (y - 1) / 400)

/-- Python `date(y, m, d).toordinal()`. -/
def toOrdinal (y m d : Nat) : Nat := daysBeforeYear y + monthOff (isLeap y) m + d

/-- The datetime constructor validity check (year range is 1-9999 as in
Python MINYEAR/MAXYEAR; four strptime digits already bound the year
above). -/
def validYMD (y m d : Nat) : Bool :=
  decide (1 ≤ y) && decide (y ≤ 9999) && decide (1 ≤ m) && decide (m ≤ 12)
    && decide (1 ≤ d) && decide (d ≤ monthLen (isLeap y) m)

/-- Two zero-padded decimal digits, as strftime %m / %d print. -/
def padDigits2 (n : Nat) : List Char := [digitChar (n / 10 % 10), digitChar (n % 10)]

/-- Four zero-padded decimal digits, as strftime %Y prints a
four-digit year. -/
def padDigits4 (n : Nat) : List Char :=
  [digitChar (n / 1000 % 10), digitChar (n / 100 % 10), digitChar (n / 10 % 10),
    digitChar (n % 10)]

/-- `strftime("%Y-%m-%d")` with the year zero-padded to four digits,
the output for every year from 1000 up; for earlier years the width of
%Y is platform-dependent in CPython (glibc prints fewer digits), and no
claim depends on the printed form of such years. -/
def fmtYMD (y m d : Nat) : String :=
  ⟨padDigits4 y ++ '-' :: (padDigits2 m ++ '-' :: padDigits2 d)⟩

/-- One-or-two-digit field of a strptime pattern: takes two digits when
the second character is a digit, otherwise one. Together with the
value-range checks below this consumes exactly the strings the CPython
_strptime regular expressions for %m, %H, %M, %S accept (these fields
take no space padding; the %d field is `readDay`). -/
def read2 : List Char → Option (Nat × List Char)
  | [] => none
  | [c] => if c.isDigit then some (digitVal c, []) else none
  | c1 :: c2 :: rest =>
    if c1.isDigit then
      if c2.isDigit then some (10 * digitVal c1 + digitVal c2, rest)
      else some (digitVal c1, c2 :: rest)
    else none

/-- The %d field of strptime. The CPython pattern is
`3[0-1]|[1-2]\d|0[1-9]|[1-9]| [1-9]`: besides the one-or-two-digit
forms it accepts a space-padded single digit. The space branch here
takes any single digit after the space; the written forms this adds
over the regex (" 0", and two-digit values above 31 from `read2`) all
carry day values the subsequent datetime validity check rejects, so
acceptance agrees with CPython. -/
def readDay (cs : List Char) : Option (Nat × List Char) :=
  match cs with
  | [] => none
  | c1 :: rest =>
    if c1 = ' ' then
      match rest with
      | c2 :: rest2 => if c2.isDigit then some (digitVal c2, rest2) else none
      | [] => none
    else read2 (c1 :: rest)

/-- The exactly-four-digit %Y field of strptime. -/
def read4 : List Char → Option (Nat × List Char)
  | a :: b :: c :: d :: rest =>
    if a.isDigit && b.isDigit && c.isDigit && d.isDigit then
      some (1000 * digitVal a + 100 * digitVal b + 10 * digitVal c + digitVal d, rest)
    else none
  | _ => none

/-- `datetime.strptime(text, "%Y-%m-%d")`, returning the date triple;
`none` is the ValueError case (pattern mismatch, trailing input, or an
invalid calendar date). The day field accepts the space-padded form of
the CPython %d pattern. -/
def strptimeTriple : List Char → Option (Nat × Nat × Nat) := fun cs =>
  match read4 cs with
  | some (y, '-' :: r1) =>
    match read2 r1 with
    | some (m, '-' :: r2) =>
      match readDay r2 with
      | some (d, []) => if validYMD y m d then some (y, m, d) else none
      | _ => none
    | _ => none
  | _ => none

/-- `datetime.strptime(s, "%Y-%m-%d")` as the date ordinal used for
comparisons and timedelta arithmetic. -/
def strptimeYMD (s : String) : Option Nat :=
  match strptimeTriple s.data with
  | some (y, m, d) => some (toOrdinal y m d)
  | none => none

/-- `datetime.strptime(text, "%m/%d/%Y")`, date triple or ValueError.
The day field accepts the space-padded form of the CPython %d
pattern. -/
def strptimeMDY : List Char → Option (Nat × Nat × Nat) := fun cs =>
  match read2 cs with
  | some (m, '/' :: r1) =>
    match readDay r1 with
    | some (d, '/' :: r2) =>
      match read4 r2 with
      | some (y, []) => if validYMD y m d then some (y, m, d) else none
      | _ => none
    | _ => none
  | _ => none

/-- `datetime.strptime(text, "%Y-%m-%d %H:%M:%S")`, date triple or
ValueError. Hours 0-23 and minutes/seconds 0-59, one or two digits, as
accepted by the _strptime patterns plus the datetime constructor. The
day field accepts the space-padded form of the CPython %d pattern, and
the literal space of the format is compiled by CPython to the regex
`\s+`, so any nonempty whitespace run separates day and hour. -/
def strptimeYMDHMS : List Char → Option (Nat × Nat × Nat) := fun cs =>
  match read4 cs with
  | some (y, '-' :: r1) =>
    match read2 r1 with
    | some (m, '-' :: r2) =>
      match readDay r2 with
      | some (d, rest) =>
        if (rest.takeWhile isPySpace).isEmpty then none
        else
          match read2 (rest.dropWhile isPySpace) with
          | some (h, ':' :: r4) =>
            match read2 r4 with
            | some (mi, ':' :: r5) =>
              match read2 r5 with
              | some (sec, []) =>
                if validYMD y m d && decide (h ≤ 23) && decide (mi ≤ 59) && decide (sec ≤ 59)
                then some (y, m, d) else none
              | _ => none
            | _ => none
          | _ => none
      | none => none
    | _ => none
  | _ => none

/-- `re.match(r"(\d{4}-\d{2}-\d{2})", text)`: a leading ISO-date-shaped
substring, with no value validation. -/
def leadingIsoDate (s : String) : Option String :=
  match s.data with
  | a :: b :: c :: d :: '-' :: e :: f :: '-' :: g :: h :: _ =>
    if a.isDigit && b.isDigit && c.isDigit && d.isDigit && e.isDigit && f.isDigit
        && g.isDigit && h.isDigit then
      some ⟨[a, b, c, d, '-', e, f, '-', g, h]⟩
    else none
  | _ => none

/-- parse_date from scrape.py: strip, try the three known formats (each
reprinted with strftime "%Y-%m-%d" on success), then the leading ISO
regex, then fall through to the stripped text. -/
def parse_date (s : String) : String :=
  let t := pyStrip s
  match strptimeTriple t.data with
  | some (y, m, d) => fmtYMD y m d
  | none =>
    match strptimeMDY t.data with
    | some (y, m, d) => fmtYMD y m d
    | none =>
      match strptimeYMDHMS t.data with
      | some (y, m, d) => fmtYMD y m d
      | none =>
        match leadingIsoDate t with
        | some r => r
        | none => t

/-- Sort key of the per-ticker sort in detect_clusters:
`x["trade_date"] if x["trade_date"] else "0000-00-00"`. -/
def sortKey (t : Trade) : String :=
  if t.trade_date = "" then "0000-00-00" else t.trade_date

/-- Stable insertion of a record into an already sorted list: the
record goes in front of the first element whose key is not strictly
smaller, which is exactly where Python sorted (a stable sort by this
key) places an element relative to later list elements. -/
def insertSorted (t : Trade) : List Trade → List Trade
  | [] => [t]
  | u :: rest =>
    if pyStrLt (sortKey u) (sortKey t) then u :: insertSorted t rest
    else t :: u :: rest

/-- `sorted(ticker_trades, key=...)` from detect_clusters, as a stable
insertion sort (stability matches Python sorted). -/
def sortByTradeDate : List Trade → List Trade
  | [] => []
  | t :: rest => insertSorted t (sortByTradeDate rest)

/-- Adding a name to the cluster_insiders set. -/
def insertStr (n : String) (l : List String) : List String :=
  if n ∈ l then l else n :: l

/-- The inner scan of detect_clusters: walk forward through the sorted
suffix, skip records whose trade_date is empty or unparseable,
stop (break) at the first record past the window end, and accumulate
distinct insider names. -/
def collectInsiders (windowEnd : Nat) : List Trade → List String → List String
  | [], acc => acc
  | o :: rest, acc =>
    if o.trade_date = "" then collectInsiders windowEnd rest acc
    else
      match strptimeYMD o.trade_date with
      | none => collectInsiders windowEnd rest acc
      | some od =>
        if windowEnd < od then acc
        else collectInsiders windowEnd rest (insertStr o.insider_name acc)

/-- The anchor date and window end for one record used as anchor, or
`none` when the anchor is skipped (empty or unparseable trade_date). -/
def anchorWindow (a : Trade) : Option (Nat × Nat) :=
  if a.trade_date = "" then none
  else
    match strptimeYMD a.trade_date with
    | none => none
    | some ad => some (ad, ad + CLUSTER_WINDOW_DAYS)

/-- All windows of the sorted group whose distinct-insider count reaches
CLUSTER_MIN_INSIDERS: the anchor loop of detect_clusters. -/
def qualifyingWindows : List Trade → List (Nat × Nat)
  | [] => []
  | a :: rest =>
    match anchorWindow a with
    | none => qualifyingWindows rest
    | some (ad, we) =>
      if CLUSTER_MIN_INSIDERS ≤ (collectInsiders we rest [a.insider_name]).length then
        (ad, we) :: qualifyingWindows rest
      else qualifyingWindows rest

/-- Whether the marking loop of some qualifying anchor window reaches
this record: its trade_date parses and falls inside the window,
inclusively on both ends. -/
def inQualifyingWindow (wins : List (Nat × Nat)) (t : Trade) : Bool :=
  if t.trade_date = "" then false
  else
    match strptimeYMD t.trade_date with
    | none => false
    | some td => wins.any (fun w => decide (w.1 ≤ td) && decide (td ≤ w.2))

/-- The by_ticker group containing this record, in original order. -/
def tickerGroup (trades : List Trade) (t : Trade) : List Trade :=
  trades.filter (fun x => decide (x.ticker = t.ticker))

/-- Final flag of one record after the pass over its ticker group: the
marking loop only ever sets the flag to True, so the result is the old
flag or-ed with the group-derived mark. -/
def applyFlag (trades : List Trade) (t : Trade) : Trade :=
  { t with
    cluster_buy := t.cluster_buy
      || inQualifyingWindow (qualifyingWindows (sortByTradeDate (tickerGroup trades t))) t }

/-- detect_clusters from scrape.py. The Python version mutates the
records in place through a by_ticker partition and returns the same
list; since the partition groups exactly the records with equal ticker
(in original order) and marking depends only on fields the pass never
writes, the result list is the input list with each record's flag
updated from its own group. -/
def detect_clusters (trades : List Trade) : List Trade :=
  trades.map (applyFlag trades)

/-- A record with its mutable flag cleared; detect_clusters must
preserve everything this keeps. -/
def stripFlag (t : Trade) : Trade := { t with cluster_buy := false }

/-- The dedup key of load_existing_csv / save_history_csv:
`f"{filing_date}|{ticker}|{insider_name}|{value}"`. -/
def keyOf (t : Trade) : String :=
  t.filing_date ++ "|" ++ t.ticker ++ "|" ++ t.insider_name ++ "|" ++ t.value

/-- The append loop of save_history_csv: rows is the CSV contents,
keys the in-memory key set, added the returned counter. -/
def mergeGo : List Trade → List Trade → List String → Nat → List Trade × Nat
  | [], rows, _, added => (rows, added)
  | t :: rest, rows, keys, added =>
    if keyOf t ∈ keys then mergeGo rest rows keys added
    else mergeGo rest (rows ++ [t]) (keyOf t :: keys) (added + 1)

/-- save_history_csv from scrape.py: load the existing key set from the
ledger rows, then append the genuinely new records in input order.
The ledger is the list of CSV data rows in append order; a missing file
and a header-only file both load as the empty ledger. -/
def save_history_csv (ledger newTrades : List Trade) : List Trade × Nat :=
  mergeGo newTrades ledger (ledger.map keyOf) 0

/-- A sequence of save_history_csv calls starting from a missing or
empty store. -/
def runBatches (batches : List (List Trade)) : List Trade :=
  batches.foldl (fun l b => (save_history_csv l b).1) []

/-- The record filter of save_latest_json:
`filing_date >= cutoff and MIN_TRADE_VALUE <= parse_value(value) < INT32_MAX`. -/
def snapshotKeep (cutoff : String) (t : Trade) : Bool :=
  pyStrLe cutoff t.filing_date
    && pyFloatLe (PyFloat.finite (MIN_TRADE_VALUE : ℚ)) (parse_value t.value)
    && pyFloatLt (parse_value t.value) (PyFloat.finite (INT32_MAX : ℚ))

/-- The trades list of the snapshot save_latest_json publishes, given
the cutoff date string computed from the current time. -/
def build_snapshot (cutoff : String) (trades : List Trade) : List Trade :=
  trades.filter (snapshotKeep cutoff)

/-- Abstract file-system operations, enough to express the write path
of save_latest_json and the temp-write-then-rename pattern the spec
asks for. -/
inductive FsOp where
  | openTrunc (path : String)
  | writeAll (path : String) (content : String)
  | rename (src : String) (dst : String)
deriving DecidableEq

/-- Effect of one operation on a path-to-contents map: opening with
mode "w" truncates to empty, a completed write stores the content,
rename moves the source content onto the destination. -/
def applyFsOp (fs : String → Option String) : FsOp → (String → Option String)
  | .openTrunc p => fun q => if q = p then some "" else fs q
  | .writeAll p c => fun q => if q = p then some c else fs q
  | .rename src dst => fun q =>
      if q = dst then fs src else if q = src then none else fs q

/-- Run a trace of operations. -/
def runFsOps (fs : String → Option String) (ops : List FsOp) : String → Option String :=
  ops.foldl applyFsOp fs

/-- The published snapshot path. -/
def LATEST_JSON : String := "data/latest.json"

/-- The file operations save_latest_json performs on the published
path: `open(LATEST_JSON, "w")` (truncate in place) followed by writing
the serialized payload. There is no temporary file and no rename. -/
def save_latest_json_ops (payload : String) : List FsOp :=
  [FsOp.openTrunc LATEST_JSON, FsOp.writeAll LATEST_JSON payload]

/-- Rows already in the store stay in the store through a merge. -/
lemma mergeGo_mem_rows (new : List Trade) (rows : List Trade) (keys : List String)
    (a : Nat) (x : Trade) (hx : x ∈ rows) : x ∈ (mergeGo new rows keys a).1 := by
  induction new generalizing rows keys a with
  | nil => simpa [mergeGo] using hx
  | cons t rest ih =>
    by_cases h : keyOf t ∈ keys
    · simpa [mergeGo, h] using ih rows keys a hx
    · simpa [mergeGo, h] using ih (rows ++ [t]) (keyOf t :: keys) (a + 1) (by simp [hx])

/-- A batch whose keys are all present is skipped whole: no rows are
appended and the counter stays put. -/
lemma mergeGo_skip (new : List Trade) (rows : List Trade) (keys : List String) (a : Nat)
    (h : ∀ t ∈ new, keyOf t ∈ keys) : mergeGo new rows keys a = (rows, a) := by
  induction new with
  | nil => rfl
  | cons t rest ih =>
    have ht : keyOf t ∈ keys := h t (List.mem_cons_self t rest)
    simpa [mergeGo, ht] using ih (fun u hu => h u (List.mem_cons_of_mem t hu))

/-- After a merge whose key set covered exactly the stored keys, every
batch record's key is present among the stored rows. -/
lemma mergeGo_keys_mem (new : List Trade) (rows : List Trade) (keys : List String) (a : Nat)
    (hsub : ∀ k ∈ keys, k ∈ rows.map keyOf) :
    ∀ t ∈ new, keyOf t ∈ ((mergeGo new rows keys a).1.map keyOf) := by
  induction new generalizing rows keys a with
  | nil => intro t ht; cases ht
  | cons t rest ih =>
    intro u hu
    by_cases h : keyOf t ∈ keys
    · rcases List.mem_cons.1 hu with hu | hu
      · subst hu
        have hr := hsub (keyOf u) h
        rcases List.mem_map.1 hr with ⟨x, hxr, hxk⟩
        have hx : x ∈ (mergeGo rest rows keys a).1 := mergeGo_mem_rows rest rows keys a x hxr
        simpa [mergeGo, h] using List.mem_map.2 ⟨x, hx, hxk⟩
      · simpa [mergeGo, h] using ih rows keys a hsub u hu
    · have hsub' : ∀ k ∈ keyOf t :: keys, k ∈ (rows ++ [t]).map keyOf := by
        intro k hk
        rcases List.mem_cons.1 hk with hk | hk
        · simp [hk]
        · have := hsub k hk
          simp only [List.map_append]
          exact List.mem_append_left _ this
      rcases List.mem_cons.1 hu with hu | hu
      · subst hu
        have hx : u ∈ (mergeGo rest (rows ++ [u]) (keyOf u :: keys) (a + 1)).1 :=
          mergeGo_mem_rows rest (rows ++ [u]) (keyOf u :: keys) (a + 1) u (by simp)
        simpa [mergeGo, h] using List.mem_map.2 ⟨u, hx, rfl⟩
      · simpa [mergeGo, h] using ih (rows ++ [t]) (keyOf t :: keys) (a + 1) hsub' u hu

/-- Claim C3: save_history_csv is idempotent: merging the same batch a
second time appends nothing, changes no stored row, and returns a count
of 0. -/
theorem save_history_csv_idempotent (ledger batch : List Trade) :
    save_history_csv (save_history_csv ledger batch).1 batch
      = ((save_history_csv ledger batch).1, 0) := by
  unfold save_history_csv
  exact mergeGo_skip batch _ _ 0
    (mergeGo_keys_mem batch ledger (ledger.map keyOf) 0 (fun k hk => hk))

/-- A merge preserves key uniqueness of the stored rows, as long as the
in-memory key set covers the stored keys. -/
lemma mergeGo_nodup (new : List Trade) (rows : List Trade) (keys : List String) (a : Nat)
    (hnd : (rows.map keyOf).Nodup) (hsup : ∀ k ∈ rows.map keyOf, k ∈ keys) :
    ((mergeGo new rows keys a).1.map keyOf).Nodup := by
  induction new generalizing rows keys a with
  | nil => simpa [mergeGo] using hnd
  | cons t rest ih =>
    by_cases h : keyOf t ∈ keys
    · simpa [mergeGo, h] using ih rows keys a hnd hsup
    · have hnot : keyOf t ∉ rows.map keyOf := fun hk => h (hsup _ hk)
      have hnd' : ((rows ++ [t]).map keyOf).Nodup := by
        simp only [List.map_append, List.nodup_append]
        refine ⟨hnd, by simp, ?_⟩
        intro k hk hk'
        simp only [List.map_cons, List.map_nil, List.mem_singleton] at hk'
        exact hnot (hk' ▸ hk)
      have hsup' : ∀ k ∈ (rows ++ [t]).map keyOf, k ∈ keyOf t :: keys := by
        intro k hk
        simp only [List.map_append, List.mem_append, List.map_cons, List.map_nil,
          List.mem_singleton] at hk
        rcases hk with hk | hk
        · exact List.mem_cons_of_mem _ (hsup k hk)
        · simp [hk]
      simpa [mergeGo, h] using ih (rows ++ [t]) (keyOf t :: keys) (a + 1) hnd' hsup'

/-- Key uniqueness survives any run of merges, starting from a ledger
with unique keys. -/
lemma runBatches_nodup (batches : List (List Trade)) (l : List Trade)
    (h : (l.map keyOf).Nodup) :
    (((batches.foldl (fun l b => (save_history_csv l b).1) l).map keyOf)).Nodup := by
  induction batches generalizing l with
  | nil => simpa using h
  | cons b rest ih =>
    simpa using ih (save_history_csv l b).1
      (mergeGo_nodup b l (l.map keyOf) 0 h (fun _ hk => hk))

/-- Claim C4: after any sequence of save_history_csv calls starting
from a missing or empty store, no two stored rows share an identity
key; and when two records of one batch share a key, only the first is
appended and counted. -/
theorem save_history_csv_key_unique :
    (∀ batches : List (List Trade), ((runBatches batches).map keyOf).Nodup)
    ∧ (∀ (ledger : List Trade) (t1 t2 : Trade), keyOf t1 = keyOf t2 →
        keyOf t1 ∉ ledger.map keyOf →
        save_history_csv ledger [t1, t2] = (ledger ++ [t1], 1)) := by
  constructor
  · intro batches
    simpa [runBatches] using runBatches_nodup batches [] (by simp)
  · intro ledger t1 t2 hk hnot
    have hnotkeys : keyOf t1 ∉ ledger.map keyOf := hnot
    have h2 : keyOf t2 ∈ keyOf t1 :: ledger.map keyOf := by simp [hk]
    simp [save_history_csv, mergeGo, hnotkeys, h2]

/-- A concrete purchase record used by the witnesses. -/
def sampleA : Trade :=
  { filing_date := "2024-01-02", trade_date := "2024-01-01", ticker := "ACME",
    company := "Acme Corp", insider_name := "Alice Smith", title := "CEO",
    trade_type := "P - Purchase", price := "1.00", qty := "10", owned := "100",
    delta_own := "1", value := "50000", cluster_buy := false }

/-- Same identity key as sampleA, different title. -/
def sampleB : Trade := { sampleA with title := "CFO" }

/-- Witness for C4: a batch with two equal-key records, merged into the
empty store, appends only the first and returns 1. -/
theorem save_history_csv_key_unique_witness :
    save_history_csv [] [sampleA, sampleB] = ([] ++ [sampleA], 1) :=
  save_history_csv_key_unique.2 [] sampleA sampleB (by decide) (by decide)

/-- Claim C5: detect_clusters returns the same records in the same
order — same length, no additions or removals — and changes no field
other than the cluster_buy flag. -/
theorem detect_clusters_frame (ts : List Trade) :
    (detect_clusters ts).map stripFlag = ts.map stripFlag
      ∧ (detect_clusters ts).length = ts.length := by
  constructor
  · unfold detect_clusters
    rw [List.map_map]
    exact List.map_congr_left (fun t _ => rfl)
  · simp [detect_clusters]

/-- The flag update keeps the sort key (it only touches cluster_buy). -/
lemma sortKey_applyFlag (ts : List Trade) (x : Trade) :
    sortKey (applyFlag ts x) = sortKey x := rfl

/-- Inserting through a flag-only rewrite of the records commutes with
the insertion sort step. -/
lemma insertSorted_map_applyFlag (ts : List Trade) (t : Trade) (l : List Trade) :
    insertSorted (applyFlag ts t) (l.map (applyFlag ts))
      = (insertSorted t l).map (applyFlag ts) := by
  induction l with
  | nil => rfl
  | cons u rest ih =>
    simp only [List.map_cons, insertSorted, sortKey_applyFlag]
    split
    · simp [ih]
    · simp

/-- The per-ticker sort commutes with a flag-only rewrite. -/
lemma sortByTradeDate_map_applyFlag (ts : List Trade) (l : List Trade) :
    sortByTradeDate (l.map (applyFlag ts)) = (sortByTradeDate l).map (applyFlag ts) := by
  induction l with
  | nil => rfl
  | cons t rest ih =>
    simp only [List.map_cons, sortByTradeDate, ih, insertSorted_map_applyFlag]

/-- The insider scan ignores the flag. -/
lemma collectInsiders_map_applyFlag (ts : List Trade) (we : Nat) (l : List Trade)
    (acc : List String) :
    collectInsiders we (l.map (applyFlag ts)) acc = collectInsiders we l acc := by
  induction l generalizing acc with
  | nil => rfl
  | cons o rest ih =>
    show collectInsiders we (applyFlag ts o :: rest.map (applyFlag ts)) acc = _
    have hd : (applyFlag ts o).trade_date = o.trade_date := rfl
    have hn : (applyFlag ts o).insider_name = o.insider_name := rfl
    simp only [collectInsiders, hd, hn]
    split
    · exact ih acc
    · cases strptimeYMD o.trade_date with
      | none => exact ih acc
      | some od =>
        simp only []
        split
        · rfl
        · exact ih (insertStr o.insider_name acc)

/-- Anchor windows ignore the flag. -/
lemma anchorWindow_applyFlag (ts : List Trade) (a : Trade) :
    anchorWindow (applyFlag ts a) = anchorWindow a := rfl

/-- The anchor loop ignores the flag. -/
lemma qualifyingWindows_map_applyFlag (ts : List Trade) (l : List Trade) :
    qualifyingWindows (l.map (applyFlag ts)) = qualifyingWindows l := by
  induction l with
  | nil => rfl
  | cons a rest ih =>
    show qualifyingWindows (applyFlag ts a :: rest.map (applyFlag ts)) = _
    have hn : (applyFlag ts a).insider_name = a.insider_name := rfl
    simp only [qualifyingWindows, anchorWindow_applyFlag, hn,
      collectInsiders_map_applyFlag, ih]

/-- Window membership of a record ignores the flag. -/
lemma inQualifyingWindow_applyFlag (wins : List (Nat × Nat)) (ts : List Trade) (t : Trade) :
    inQualifyingWindow wins (applyFlag ts t) = inQualifyingWindow wins t := rfl

/-- The ticker group of a flag-rewritten record in the flag-rewritten
list is the rewrite of its original group. -/
lemma tickerGroup_map_applyFlag (ts l : List Trade) (t : Trade) :
    tickerGroup (l.map (applyFlag ts)) (applyFlag ts t)
      = (tickerGroup l t).map (applyFlag ts) := by
  unfold tickerGroup
  rw [List.filter_map]
  congr 1

/-- Claim C6: detect_clusters never clears a set flag (monotone) and is
idempotent: a second run on its own output changes nothing. -/
theorem detect_clusters_monotone_idem (ts : List Trade) :
    List.Forall₂ (fun a b => a.cluster_buy = true → b.cluster_buy = true)
      ts (detect_clusters ts)
    ∧ detect_clusters (detect_clusters ts) = detect_clusters ts := by
  constructor
  · unfold detect_clusters
    induction ts with
    | nil => exact List.Forall₂.nil
    | cons t rest ih =>
      refine List.Forall₂.cons ?_ ?_
      · intro h; simp [applyFlag, h]
      · exact List.forall₂_map_right_iff.2
          (List.forall₂_same.2 (fun x _ hx => by simp [applyFlag, hx]))
  · show detect_clusters (ts.map (applyFlag ts)) = detect_clusters ts
    unfold detect_clusters
    rw [List.map_map]
    refine List.map_congr_left (fun t _ => ?_)
    have hwins : qualifyingWindows (sortByTradeDate
          (tickerGroup (ts.map (applyFlag ts)) (applyFlag ts t)))
        = qualifyingWindows (sortByTradeDate (tickerGroup ts t)) := by
      rw [tickerGroup_map_applyFlag, sortByTradeDate_map_applyFlag,
        qualifyingWindows_map_applyFlag]
    simp only [Function.comp_apply]
    conv_lhs => rw [applyFlag]
    rw [hwins, inQualifyingWindow_applyFlag]
    cases t
    dsimp only [applyFlag]
    rw [Bool.or_assoc, Bool.or_self]

/-- Claim C7: the snapshot value filter is the half-open interval
[MIN_TRADE_VALUE, INT32_MAX): value exactly 50000 is kept, 49999 is
dropped, the sentinel 2147483647 is dropped, 2147483646 is kept, for
any record that passes the recency cutoff. -/
theorem build_snapshot_value_boundaries (ts : List Trade) (cutoff : String) (t : Trade)
    (hin : t ∈ ts) (hrec : pyStrLe cutoff t.filing_date = true) :
    (parse_value t.value = PyFloat.finite 50000 → t ∈ build_snapshot cutoff ts)
    ∧ (parse_value t.value = PyFloat.finite 49999 → t ∉ build_snapshot cutoff ts)
    ∧ (parse_value t.value = PyFloat.finite 2147483647 → t ∉ build_snapshot cutoff ts)
    ∧ (parse_value t.value = PyFloat.finite 2147483646 → t ∈ build_snapshot cutoff ts) := by
  refine ⟨fun h => ?_, fun h hmem => ?_, fun h hmem => ?_, fun h => ?_⟩
  · rw [build_snapshot, List.mem_filter]
    refine ⟨hin, ?_⟩
    rw [snapshotKeep, hrec, h]
    simp [pyFloatLe, pyFloatLt, MIN_TRADE_VALUE, INT32_MAX]
    try norm_num
  · rw [build_snapshot, List.mem_filter, snapshotKeep, h] at hmem
    rcases hmem with ⟨-, hkeep⟩
    rw [hrec] at hkeep
    simp [pyFloatLe, pyFloatLt, MIN_TRADE_VALUE, INT32_MAX] at hkeep
    try norm_num at hkeep
  · rw [build_snapshot, List.mem_filter, snapshotKeep, h] at hmem
    rcases hmem with ⟨-, hkeep⟩
    rw [hrec] at hkeep
    simp [pyFloatLe, pyFloatLt, MIN_TRADE_VALUE, INT32_MAX] at hkeep
    try norm_num at hkeep
  · rw [build_snapshot, List.mem_filter]
    refine ⟨hin, ?_⟩
    rw [snapshotKeep, hrec, h]
    simp [pyFloatLe, pyFloatLt, MIN_TRADE_VALUE, INT32_MAX]
    try norm_num

/-- Witness for C7: the boundary record with value exactly 50000 is
kept in a concrete snapshot. -/
theorem build_snapshot_value_boundaries_witness :
    sampleA ∈ build_snapshot "" [sampleA] :=
  (build_snapshot_value_boundaries [sampleA] "" sampleA (by decide) (by decide)).1 (by decide)

/-- Claim C8: parse_value is total — it always returns a float value —
and returns exactly 0.0 whenever the cleaned input does not parse as a
float, as on the empty string and malformed numbers. -/
theorem parse_value_total_default :
    (∀ s : String, pyFloatOfString (clean_number s) = none → parse_value s = PyFloat.finite 0)
    ∧ parse_value "" = PyFloat.finite 0
    ∧ parse_value "abc" = PyFloat.finite 0
    ∧ parse_value "1.2.3" = PyFloat.finite 0 := by
  refine ⟨fun s h => ?_, by decide, by decide, by decide⟩
  rw [parse_value, h]

/-- Witness for C8: the default branch at a concrete unparseable
input. -/
theorem parse_value_total_default_witness : parse_value "x7y" = PyFloat.finite 0 :=
  parse_value_total_default.1 "x7y" (by decide)

/-- Pairwise equality of the four identity-key fields, the relation the
spec calls "the same event". -/
def fourKeyEq (a b : Trade) : Prop :=
  a.filing_date = b.filing_date ∧ a.ticker = b.ticker
    ∧ a.insider_name = b.insider_name ∧ a.value = b.value

instance (a b : Trade) : Decidable (fourKeyEq a b) := by
  unfold fourKeyEq; infer_instance

/-- A string without the key separator character. -/
def pipeFreeStr (s : String) : Prop := '|' ∉ s.data

instance (s : String) : Decidable (pipeFreeStr s) := by
  unfold pipeFreeStr; infer_instance

/-- The first three key fields are separator-free (the value field may
contain anything: it is the last key component). -/
def pipeFreeKeyFields (t : Trade) : Prop :=
  pipeFreeStr t.filing_date ∧ pipeFreeStr t.ticker ∧ pipeFreeStr t.insider_name

/-- Splitting at the first separator is unambiguous when neither prefix
contains the separator. -/
lemma pipe_split (a1 : List Char) (b1 : List Char) (a2 : List Char) (b2 : List Char)
    (h1 : '|' ∉ a1) (h2 : '|' ∉ a2)
    (he : a1 ++ '|' :: b1 = a2 ++ '|' :: b2) : a1 = a2 ∧ b1 = b2 := by
  induction a1 generalizing a2 with
  | nil =>
    cases a2 with
    | nil =>
      simp only [List.nil_append] at he
      injection he with _ h
      exact ⟨rfl, h⟩
    | cons c a2' =>
      simp only [List.nil_append, List.cons_append] at he
      injection he with hc _
      exact absurd (List.mem_cons_self c a2') (by rw [← hc] at h2 ⊢; exact h2)
  | cons c a1' ih =>
    cases a2 with
    | nil =>
      simp only [List.cons_append, List.nil_append] at he
      injection he with hc _
      exact absurd (List.mem_cons_self c a1') (by rw [hc] at h1 ⊢; exact h1)
    | cons c2 a2' =>
      simp only [List.cons_append] at he
      injection he with hc hrest
      have h1' : '|' ∉ a1' := fun hm => h1 (List.mem_cons_of_mem c hm)
      have h2' : '|' ∉ a2' := fun hm => h2 (List.mem_cons_of_mem c2 hm)
      obtain ⟨ha, hb⟩ := ih a2' h1' h2' hrest
      exact ⟨by rw [hc, ha], hb⟩

/-- The data of a dedup key, right-associated. -/
lemma keyOf_data (t : Trade) :
    (keyOf t).data = t.filing_date.data
      ++ '|' :: (t.ticker.data ++ '|' :: (t.insider_name.data ++ '|' :: t.value.data)) := by
  have hp : ("|" : String).data = ['|'] := rfl
  simp [keyOf, String.data_append, hp, List.append_assoc]

/-- A record whose filing_date contains the key separator. -/
def cexPipeA : Trade :=
  { filing_date := "a|b", trade_date := "", ticker := "c", company := "",
    insider_name := "d", title := "T1", trade_type := "", price := "", qty := "",
    owned := "", delta_own := "", value := "e", cluster_buy := false }

/-- A different record (different filing_date, ticker, title) whose
joined key collides with the one above. -/
def cexPipeB : Trade :=
  { filing_date := "a", trade_date := "", ticker := "b|c", company := "",
    insider_name := "d", title := "T2", trade_type := "", price := "", qty := "",
    owned := "", delta_own := "", value := "e", cluster_buy := false }

/-- Counterexample for C2 as stated: two records that are NOT pairwise
equal on the four key fields still collide on the dedup key (the key is
a pipe-joined string, and a pipe inside a field shifts the boundaries),
so the merge treats them as the same event and drops the second. -/
theorem keyOf_field_equality_cex :
    keyOf cexPipeA = keyOf cexPipeB
    ∧ ¬ fourKeyEq cexPipeA cexPipeB
    ∧ save_history_csv [] [cexPipeA, cexPipeB] = ([cexPipeA], 1) := by
  refine ⟨by decide, by decide, by decide⟩

/-- Claim C2, amended: equality of the four key fields always gives
equal keys; when the first three key fields are separator-free the
key equality is exactly four-field equality; records differing only in
value get distinct keys and are both stored; records equal on all four
key fields are deduplicated (the second is skipped and the stored row
is left unchanged). Without the separator-free proviso the "exactly
when" direction fails (see the counterexample). -/
theorem save_history_key_semantics :
    (∀ t1 t2 : Trade, fourKeyEq t1 t2 → keyOf t1 = keyOf t2)
    ∧ (∀ t1 t2 : Trade, pipeFreeKeyFields t1 → pipeFreeKeyFields t2 →
        (keyOf t1 = keyOf t2 ↔ fourKeyEq t1 t2))
    ∧ (∀ (ledger : List Trade) (t1 t2 : Trade),
        t1.filing_date = t2.filing_date → t1.ticker = t2.ticker →
        t1.insider_name = t2.insider_name → t1.value ≠ t2.value →
        keyOf t1 ∉ ledger.map keyOf → keyOf t2 ∉ ledger.map keyOf →
        save_history_csv ledger [t1, t2] = (ledger ++ [t1, t2], 2))
    ∧ (∀ (ledger : List Trade) (t1 t2 : Trade), fourKeyEq t1 t2 →
        keyOf t1 ∉ ledger.map keyOf →
        save_history_csv ledger [t1, t2] = (ledger ++ [t1], 1)) := by
  have hcongr : ∀ t1 t2 : Trade, fourKeyEq t1 t2 → keyOf t1 = keyOf t2 := by
    intro t1 t2 h
    rcases h with ⟨hf, ht, hi, hv⟩
    rw [keyOf, hf, ht, hi, hv, keyOf]
  have hvalne : ∀ t1 t2 : Trade, t1.filing_date = t2.filing_date → t1.ticker = t2.ticker →
      t1.insider_name = t2.insider_name → t1.value ≠ t2.value → keyOf t1 ≠ keyOf t2 := by
    intro t1 t2 hf ht hi hv he
    have hd := congrArg String.data he
    rw [keyOf_data, keyOf_data, hf, ht, hi] at hd
    have h1 := List.append_cancel_left hd
    injection h1 with _ h1
    have h2 := List.append_cancel_left h1
    injection h2 with _ h2
    have h3 := List.append_cancel_left h2
    injection h3 with _ h3
    exact hv (String.ext h3)
  refine ⟨hcongr, ?_, ?_, ?_⟩
  · intro t1 t2 h1 h2
    constructor
    · intro he
      have hd := congrArg String.data he
      rw [keyOf_data, keyOf_data] at hd
      obtain ⟨hf, hd2⟩ := pipe_split _ _ _ _ h1.1 h2.1 hd
      obtain ⟨ht, hd3⟩ := pipe_split _ _ _ _ h1.2.1 h2.2.1 hd2
      obtain ⟨hi, hv⟩ := pipe_split _ _ _ _ h1.2.2 h2.2.2 hd3
      exact ⟨String.ext hf, String.ext ht, String.ext hi, String.ext hv⟩
    · exact hcongr t1 t2
  · intro ledger t1 t2 hf ht hi hv hk1 hk2
    have hne : keyOf t2 ≠ keyOf t1 := fun h => hvalne t1 t2 hf ht hi hv h.symm
    have h2 : keyOf t2 ∉ keyOf t1 :: ledger.map keyOf := by
      intro h
      rcases List.mem_cons.1 h with h | h
      · exact hne h
      · exact hk2 h
    simp [save_history_csv, mergeGo, hk1, h2]
  · intro ledger t1 t2 h4 hk1
    have h2 : keyOf t2 ∈ keyOf t1 :: ledger.map keyOf := by
      simp [hcongr t1 t2 h4]
    simp [save_history_csv, mergeGo, hk1, h2]

/-- Witness for C2 (amended): concrete records equal on the four key
fields but differing in title are deduplicated with the first kept. -/
theorem save_history_key_semantics_witness :
    save_history_csv [] [sampleB, sampleA] = ([] ++ [sampleB], 1) :=
  save_history_key_semantics.2.2.2 [] sampleB sampleA (by decide) (by decide)

/-- The hypothesis of C9: none of the known date formats matches and no
leading ISO-date-shaped substring is present (the code applies all of
these to the stripped text). -/
def parse_date_noMatch (s : String) : Prop :=
  strptimeTriple (pyStrip s).data = none ∧ strptimeMDY (pyStrip s).data = none
    ∧ strptimeYMDHMS (pyStrip s).data = none ∧ leadingIsoDate (pyStrip s) = none

/-- Counterexample for C9 as stated: on an input with trailing
whitespace that matches no format and has no leading ISO-shaped
substring, parse_date does not return the original input — it returns
the stripped input. -/
theorem parse_date_original_cex :
    parse_date_noMatch "abc " ∧ parse_date "abc " ≠ "abc " := by
  refine ⟨⟨rfl, rfl, rfl, rfl⟩, by decide⟩

/-- Claim C9, amended: when no known format matches and no leading
ISO-shaped substring is present, parse_date returns the input stripped
of surrounding whitespace; in particular it returns the input unchanged
whenever the input carries no surrounding whitespace. -/
theorem parse_date_fallthrough (s : String) (h : parse_date_noMatch s) :
    parse_date s = pyStrip s ∧ (pyStrip s = s → parse_date s = s) := by
  obtain ⟨h1, h2, h3, h4⟩ := h
  have hmain : parse_date s = pyStrip s := by
    unfold parse_date
    simp only [h1, h2, h3, h4]
  exact ⟨hmain, fun hs => hmain.trans hs⟩

/-- Witness for C9 (amended) at a concrete input. -/
theorem parse_date_fallthrough_witness :
    parse_date "zzz" = pyStrip "zzz" ∧ (pyStrip "zzz" = "zzz" → parse_date "zzz" = "zzz") :=
  parse_date_fallthrough "zzz" ⟨rfl, rfl, rfl, rfl⟩

/-- Counterexample for C10 as stated: starting from a file system whose
published path holds a previous valid snapshot, running only the first
operation of the save_latest_json trace (the truncating open) leaves
the published path holding the empty string — neither the previous
snapshot nor the new payload, i.e. a truncated file. -/
theorem save_latest_json_not_atomic_cex :
    runFsOps (fun p => if p = LATEST_JSON then some "old snapshot" else none)
        ((save_latest_json_ops "new snapshot").take 1) LATEST_JSON = some ""
    ∧ some ("" : String) ≠ some ("old snapshot" : String)
    ∧ some ("" : String) ≠ some ("new snapshot" : String) := by
  refine ⟨by decide, by decide, by decide⟩

/-- Claim C10, amended: save_latest_json overwrites the published file
in place — a completed run leaves the serialized payload, but the trace
truncates the published path first and uses no temporary file or
rename, so an interruption between the truncating open and the write
leaves the published file empty. -/
theorem save_latest_json_overwrite (fs : String → Option String) (payload : String) :
    runFsOps fs (save_latest_json_ops payload) LATEST_JSON = some payload
    ∧ runFsOps fs ((save_latest_json_ops payload).take 1) LATEST_JSON = some "" := by
  constructor
  · simp [runFsOps, save_latest_json_ops, applyFsOp]
  · simp [runFsOps, save_latest_json_ops, applyFsOp]

lemma monthOff_step : ∀ (L : Bool), ∀ m < 13, 1 ≤ m →
    monthOff L m + monthLen L m = monthOff L (m + 1) := by decide

lemma monthOff_mono : ∀ (L : Bool), ∀ a < 14, 1 ≤ a → ∀ b < 14, a ≤ b →
    monthOff L a ≤ monthOff L b := by decide

lemma monthOff_le_13 : ∀ (L : Bool), ∀ m < 13, 1 ≤ m →
    monthOff L m + monthLen L m ≤ monthOff L 13 := by decide

lemma monthOff_13 : ∀ L : Bool, monthOff L 13 = if L then 366 else 365 := by decide

lemma daysBeforeYear_succ (y : Nat) (hy : 1 ≤ y) :
    daysBeforeYear (y + 1) = daysBeforeYear y + (if isLeap y then 366 else 365) := by
  unfold daysBeforeYear isLeap
  by_cases h4 : y % 4 = 0 <;> by_cases h100 : y % 100 = 0 <;> by_cases h400 : y % 400 = 0 <;>
    simp [h4, h100, h400] <;> omega

lemma daysBeforeYear_mono (a b : Nat) (h : a ≤ b) : daysBeforeYear a ≤ daysBeforeYear b := by
  unfold daysBeforeYear; omega

lemma daysBeforeYear_gap (y y' : Nat) (hy : 1 ≤ y) (h : y < y') :
    daysBeforeYear y + (if isLeap y then 366 else 365) ≤ daysBeforeYear y' := by
  calc daysBeforeYear y + (if isLeap y then 366 else 365) = daysBeforeYear (y + 1) :=
        (daysBeforeYear_succ y hy).symm
    _ ≤ daysBeforeYear y' := daysBeforeYear_mono _ _ h

/-- Strict triple lexicographic order on date triples. -/
def lexTripleLt (y m d y' m' d' : Nat) : Prop :=
  y < y' ∨ (y = y' ∧ (m < m' ∨ (m = m' ∧ d < d')))

lemma validYMD_bounds (y m d : Nat) (h : validYMD y m d = true) :
    1 ≤ y ∧ y ≤ 9999 ∧ 1 ≤ m ∧ m ≤ 12 ∧ 1 ≤ d ∧ d ≤ monthLen (isLeap y) m := by
  simp only [validYMD, Bool.and_eq_true, decide_eq_true_eq] at h
  exact ⟨h.1.1.1.1.1, h.1.1.1.1.2, h.1.1.1.2, h.1.1.2, h.1.2, h.2⟩

lemma toOrdinal_strict_mono (y m d y' m' d' : Nat)
    (h : validYMD y m d = true) (h' : validYMD y' m' d' = true)
    (hlex : lexTripleLt y m d y' m' d') : toOrdinal y m d < toOrdinal y' m' d' := by
  obtain ⟨hy1, hy2, hm1, hm2, hd1, hd2⟩ := validYMD_bounds y m d h
  obtain ⟨hy1', hy2', hm1', hm2', hd1', hd2'⟩ := validYMD_bounds y' m' d' h'
  rcases hlex with hy | ⟨rfl, hmd⟩
  · have hpos : monthOff (isLeap y) m + d ≤ monthOff (isLeap y) 13 := by
      have h1 := monthOff_le_13 (isLeap y) m (by omega) hm1
      omega
    have hgap := daysBeforeYear_gap y y' hy1 hy
    have hpos2 : monthOff (isLeap y) m + d ≤ (if isLeap y then 366 else 365) := by
      rw [← monthOff_13]; exact hpos
    unfold toOrdinal
    omega
  · have hoff : monthOff (isLeap y) m + d < monthOff (isLeap y) m' + d' := by
      rcases hmd with hm | ⟨rfl, hd⟩
      · have h1 := monthOff_step (isLeap y) m (by omega) hm1
        have h2 := monthOff_mono (isLeap y) (m + 1) (by omega) (by omega) m' (by omega) (by omega)
        omega
      · omega
    unfold toOrdinal
    omega

lemma digitChar_toNat : ∀ k < 10, (digitChar k).toNat = 48 + k := by decide

lemma digitChar_isDigit : ∀ k < 10, (digitChar k).isDigit = true := by decide

lemma digitVal_digitChar : ∀ k < 10, digitVal (digitChar k) = k := by decide

lemma listLexLt_append_congr (xs ys r1 r2 : List Char) (hlen : xs.length = ys.length)
    (h : listLexLt xs ys = true) : listLexLt (xs ++ r1) (ys ++ r2) = true := by
  induction xs generalizing ys with
  | nil =>
    cases ys with
    | nil => simp [listLexLt] at h
    | cons b bs => simp at hlen
  | cons a as ih =>
    cases ys with
    | nil => simp at hlen
    | cons b bs =>
      simp only [listLexLt] at h
      show listLexLt (a :: (as ++ r1)) (b :: (bs ++ r2)) = true
      by_cases h1 : a.toNat < b.toNat
      · simp [listLexLt, h1]
      · by_cases h2 : b.toNat < a.toNat
        · simp [h1, h2] at h
        · simp only [h1, h2, if_false] at h
          simp only [listLexLt, h1, h2, if_false]
          exact ih bs (by simpa using hlen) h

lemma listLexLt_append_left (xs r1 r2 : List Char) :
    listLexLt (xs ++ r1) (xs ++ r2) = listLexLt r1 r2 := by
  induction xs with
  | nil => rfl
  | cons a as ih =>
    show listLexLt (a :: (as ++ r1)) (a :: (as ++ r2)) = _
    simp only [listLexLt, Nat.lt_irrefl, if_false]
    exact ih

lemma listLexLt_asymm (xs ys : List Char) (h : listLexLt xs ys = true) :
    listLexLt ys xs = false := by
  induction xs generalizing ys with
  | nil =>
    cases ys with
    | nil => simp [listLexLt] at h
    | cons b bs => rfl
  | cons a as ih =>
    cases ys with
    | nil => simp [listLexLt] at h
    | cons b bs =>
      simp only [listLexLt] at h
      by_cases h1 : a.toNat < b.toNat
      · have h2 : ¬ b.toNat < a.toNat := by omega
        simp [listLexLt, h1, h2]
      · by_cases h2 : b.toNat < a.toNat
        · simp [h1, h2] at h
        · simp only [h1, h2, if_false] at h
          simp only [listLexLt, h1, h2, if_false]
          exact ih bs h

lemma pad4_lt (a b : Nat) (ha : a ≤ 9999) (hb : b ≤ 9999) (hab : a < b) :
    listLexLt (padDigits4 a) (padDigits4 b) = true := by
  have e1 : (digitChar (a / 1000 % 10)).toNat = 48 + a / 1000 % 10 :=
    digitChar_toNat _ (Nat.mod_lt _ (by norm_num))
  have e2 : (digitChar (a / 100 % 10)).toNat = 48 + a / 100 % 10 :=
    digitChar_toNat _ (Nat.mod_lt _ (by norm_num))
  have e3 : (digitChar (a / 10 % 10)).toNat = 48 + a / 10 % 10 :=
    digitChar_toNat _ (Nat.mod_lt _ (by norm_num))
  have e4 : (digitChar (a % 10)).toNat = 48 + a % 10 :=
    digitChar_toNat _ (Nat.mod_lt _ (by norm_num))
  have f1 : (digitChar (b / 1000 % 10)).toNat = 48 + b / 1000 % 10 :=
    digitChar_toNat _ (Nat.mod_lt _ (by norm_num))
  have f2 : (digitChar (b / 100 % 10)).toNat = 48 + b / 100 % 10 :=
    digitChar_toNat _ (Nat.mod_lt _ (by norm_num))
  have f3 : (digitChar (b / 10 % 10)).toNat = 48 + b / 10 % 10 :=
    digitChar_toNat _ (Nat.mod_lt _ (by norm_num))
  have f4 : (digitChar (b % 10)).toNat = 48 + b % 10 :=
    digitChar_toNat _ (Nat.mod_lt _ (by norm_num))
  simp only [padDigits4, listLexLt, e1, e2, e3, e4, f1, f2, f3, f4]
  split_ifs <;> first | rfl | (exfalso; omega)

lemma pad2_lt (a b : Nat) (ha : a ≤ 99) (hb : b ≤ 99) (hab : a < b) :
    listLexLt (padDigits2 a) (padDigits2 b) = true := by
  have e3 : (digitChar (a / 10 % 10)).toNat = 48 + a / 10 % 10 :=
    digitChar_toNat _ (Nat.mod_lt _ (by norm_num))
  have e4 : (digitChar (a % 10)).toNat = 48 + a % 10 :=
    digitChar_toNat _ (Nat.mod_lt _ (by norm_num))
  have f3 : (digitChar (b / 10 % 10)).toNat = 48 + b / 10 % 10 :=
    digitChar_toNat _ (Nat.mod_lt _ (by norm_num))
  have f4 : (digitChar (b % 10)).toNat = 48 + b % 10 :=
    digitChar_toNat _ (Nat.mod_lt _ (by norm_num))
  simp only [padDigits2, listLexLt, e3, e4, f3, f4]
  split_ifs <;> first | rfl | (exfalso; omega)

lemma fmtYMD_lt (y m d y' m' d' : Nat)
    (hy : y ≤ 9999) (hy' : y' ≤ 9999) (hm : m ≤ 99) (hm' : m' ≤ 99)
    (hd : d ≤ 99) (hd' : d' ≤ 99)
    (hlex : lexTripleLt y m d y' m' d') :
    pyStrLt (fmtYMD y m d) (fmtYMD y' m' d') = true := by
  show listLexLt
    (padDigits4 y ++ '-' :: (padDigits2 m ++ '-' :: padDigits2 d))
    (padDigits4 y' ++ '-' :: (padDigits2 m' ++ '-' :: padDigits2 d')) = true
  rcases hlex with hvy | ⟨rfl, hmd⟩
  · exact listLexLt_append_congr _ _ _ _ (by simp [padDigits4]) (pad4_lt y y' hy hy' hvy)
  · rcases hmd with hvm | ⟨rfl, hvd⟩
    · have hre : ∀ r : List Char, padDigits4 y ++ '-' :: r = (padDigits4 y ++ ['-']) ++ r := by
        intro r; simp
      rw [hre (padDigits2 m ++ '-' :: padDigits2 d), hre (padDigits2 m' ++ '-' :: padDigits2 d'),
        listLexLt_append_left]
      exact listLexLt_append_congr _ _ _ _ (by simp [padDigits2]) (pad2_lt m m' hm hm' hvm)
    · have hre : ∀ r : List Char,
          padDigits4 y ++ '-' :: (padDigits2 m ++ '-' :: r)
            = ((padDigits4 y ++ ['-']) ++ (padDigits2 m ++ ['-'])) ++ r := by
        intro r; simp
      rw [hre (padDigits2 d), hre (padDigits2 d'), listLexLt_append_left]
      exact pad2_lt d d' hd hd' hvd

lemma read4_pad (n : Nat) (hn : n ≤ 9999) (rest : List Char) :
    read4 (padDigits4 n ++ rest) = some (n, rest) := by
  have i1 : (digitChar (n / 1000 % 10)).isDigit = true :=
    digitChar_isDigit _ (Nat.mod_lt _ (by norm_num))
  have i2 : (digitChar (n / 100 % 10)).isDigit = true :=
    digitChar_isDigit _ (Nat.mod_lt _ (by norm_num))
  have i3 : (digitChar (n / 10 % 10)).isDigit = true :=
    digitChar_isDigit _ (Nat.mod_lt _ (by norm_num))
  have i4 : (digitChar (n % 10)).isDigit = true :=
    digitChar_isDigit _ (Nat.mod_lt _ (by norm_num))
  have v1 : digitVal (digitChar (n / 1000 % 10)) = n / 1000 % 10 :=
    digitVal_digitChar _ (Nat.mod_lt _ (by norm_num))
  have v2 : digitVal (digitChar (n / 100 % 10)) = n / 100 % 10 :=
    digitVal_digitChar _ (Nat.mod_lt _ (by norm_num))
  have v3 : digitVal (digitChar (n / 10 % 10)) = n / 10 % 10 :=
    digitVal_digitChar _ (Nat.mod_lt _ (by norm_num))
  have v4 : digitVal (digitChar (n % 10)) = n % 10 :=
    digitVal_digitChar _ (Nat.mod_lt _ (by norm_num))
  show read4 (digitChar (n / 1000 % 10) :: digitChar (n / 100 % 10)
      :: digitChar (n / 10 % 10) :: digitChar (n % 10) :: rest) = some (n, rest)
  simp only [read4, i1, i2, i3, i4, Bool.and_self, if_true, v1, v2, v3, v4]
  have hv : 1000 * (n / 1000 % 10) + 100 * (n / 100 % 10) + 10 * (n / 10 % 10) + n % 10 = n := by
    omega
  rw [hv]

lemma read2_pad (n : Nat) (hn : n ≤ 99) (rest : List Char) :
    read2 (padDigits2 n ++ rest) = some (n, rest) := by
  have i3 : (digitChar (n / 10 % 10)).isDigit = true :=
    digitChar_isDigit _ (Nat.mod_lt _ (by norm_num))
  have i4 : (digitChar (n % 10)).isDigit = true :=
    digitChar_isDigit _ (Nat.mod_lt _ (by norm_num))
  have v3 : digitVal (digitChar (n / 10 % 10)) = n / 10 % 10 :=
    digitVal_digitChar _ (Nat.mod_lt _ (by norm_num))
  have v4 : digitVal (digitChar (n % 10)) = n % 10 :=
    digitVal_digitChar _ (Nat.mod_lt _ (by norm_num))
  show read2 (digitChar (n / 10 % 10) :: digitChar (n % 10) :: rest) = some (n, rest)
  simp only [read2, i3, i4, if_true, v3, v4]
  have hv : 10 * (n / 10 % 10) + n % 10 = n := by omega
  rw [hv]

lemma digitChar_ne_space (k : Nat) : digitChar k ≠ ' ' := by
  unfold digitChar
  split <;> decide

lemma readDay_pad (n : Nat) (hn : n ≤ 99) (rest : List Char) :
    readDay (padDigits2 n ++ rest) = some (n, rest) := by
  show readDay (digitChar (n / 10 % 10) :: digitChar (n % 10) :: rest) = some (n, rest)
  unfold readDay
  dsimp only
  rw [if_neg (digitChar_ne_space (n / 10 % 10))]
  exact read2_pad n hn rest

lemma strptimeTriple_fmtYMD (y m d : Nat) (h : validYMD y m d = true) :
    strptimeTriple (fmtYMD y m d).data = some (y, m, d) := by
  obtain ⟨hy1, hy2, hm1, hm2, hd1, hd2⟩ := validYMD_bounds y m d h
  have hml : monthLen (isLeap y) m ≤ 31 := by
    have : ∀ (L : Bool), ∀ mm < 13, monthLen L mm ≤ 31 := by decide
    exact this _ m (by omega)
  show strptimeTriple (padDigits4 y ++ '-' :: (padDigits2 m ++ '-' :: padDigits2 d)) = _
  have r4 := read4_pad y (by omega) ('-' :: (padDigits2 m ++ '-' :: padDigits2 d))
  have r2a := read2_pad m (by omega) ('-' :: padDigits2 d)
  have r2b := readDay_pad d (by omega) []
  rw [List.append_nil] at r2b
  unfold strptimeTriple
  simp [r4, r2a, r2b, h]

lemma strptimeYMD_fmtYMD (y m d : Nat) (h : validYMD y m d = true) :
    strptimeYMD (fmtYMD y m d) = some (toOrdinal y m d) := by
  unfold strptimeYMD
  rw [strptimeTriple_fmtYMD y m d h]

lemma fmtYMD_ne_empty (y m d : Nat) : fmtYMD y m d ≠ "" := by
  intro h
  have hd := congrArg String.data h
  simp [fmtYMD, padDigits4] at hd

lemma detect_pair_eval1 (r1 r2 : Trade) (o1 o2 : Nat)
    (ht : r2.ticker = r1.ticker)
    (hne1 : ¬ r1.trade_date = "") (hne2 : ¬ r2.trade_date = "")
    (h1 : strptimeYMD r1.trade_date = some o1) (h2 : strptimeYMD r2.trade_date = some o2)
    (hsort : pyStrLt (sortKey r2) (sortKey r1) = false)
    (ho : o1 ≤ o2) (hwin : o2 ≤ o1 + 14)
    (hins : ¬ r2.insider_name = r1.insider_name) :
    (detect_clusters [r1, r2]).map (fun t => t.cluster_buy) = [true, true] := by
  have hnb : ¬ (o1 + 14 < o2) := by omega
  simp [detect_clusters, applyFlag, tickerGroup, sortByTradeDate, insertSorted,
    qualifyingWindows, anchorWindow, collectInsiders, insertStr, inQualifyingWindow,
    CLUSTER_WINDOW_DAYS, CLUSTER_MIN_INSIDERS, ht, hne1, hne2, h1, h2, hsort, hnb, hins,
    ho, hwin]

lemma detect_pair_eval2 (r1 r2 : Trade) (o1 o2 : Nat)
    (ht : r2.ticker = r1.ticker)
    (hne1 : ¬ r1.trade_date = "") (hne2 : ¬ r2.trade_date = "")
    (h1 : strptimeYMD r1.trade_date = some o1) (h2 : strptimeYMD r2.trade_date = some o2)
    (hsort : pyStrLt (sortKey r2) (sortKey r1) = true)
    (ho : o2 ≤ o1) (hwin : o1 ≤ o2 + 14)
    (hins : ¬ r1.insider_name = r2.insider_name) :
    (detect_clusters [r1, r2]).map (fun t => t.cluster_buy) = [true, true] := by
  have hnb : ¬ (o2 + 14 < o1) := by omega
  simp [detect_clusters, applyFlag, tickerGroup, sortByTradeDate, insertSorted,
    qualifyingWindows, anchorWindow, collectInsiders, insertStr, inQualifyingWindow,
    CLUSTER_WINDOW_DAYS, CLUSTER_MIN_INSIDERS, ht, hne1, hne2, h1, h2, hsort, hnb, hins,
    ho, hwin]

lemma detect_pair_noflag1 (r1 r2 : Trade) (o1 o2 : Nat)
    (ht : r2.ticker = r1.ticker)
    (hne1 : ¬ r1.trade_date = "") (hne2 : ¬ r2.trade_date = "")
    (h1 : strptimeYMD r1.trade_date = some o1) (h2 : strptimeYMD r2.trade_date = some o2)
    (hsort : pyStrLt (sortKey r2) (sortKey r1) = false)
    (hno : o1 + 14 < o2 ∨ r2.insider_name = r1.insider_name) :
    (detect_clusters [r1, r2]).map (fun t => t.cluster_buy)
      = [r1.cluster_buy, r2.cluster_buy] := by
  rcases hno with hbrk | hsame
  · simp [detect_clusters, applyFlag, tickerGroup, sortByTradeDate, insertSorted,
      qualifyingWindows, anchorWindow, collectInsiders, insertStr, inQualifyingWindow,
      CLUSTER_WINDOW_DAYS, CLUSTER_MIN_INSIDERS, ht, hne1, hne2, h1, h2, hsort, hbrk]
  · simp [detect_clusters, applyFlag, tickerGroup, sortByTradeDate, insertSorted,
      qualifyingWindows, anchorWindow, collectInsiders, insertStr, inQualifyingWindow,
      CLUSTER_WINDOW_DAYS, CLUSTER_MIN_INSIDERS, ht, hne1, hne2, h1, h2, hsort, hsame]

lemma detect_pair_noflag2 (r1 r2 : Trade) (o1 o2 : Nat)
    (ht : r2.ticker = r1.ticker)
    (hne1 : ¬ r1.trade_date = "") (hne2 : ¬ r2.trade_date = "")
    (h1 : strptimeYMD r1.trade_date = some o1) (h2 : strptimeYMD r2.trade_date = some o2)
    (hsort : pyStrLt (sortKey r2) (sortKey r1) = true)
    (hno : o2 + 14 < o1 ∨ r1.insider_name = r2.insider_name) :
    (detect_clusters [r1, r2]).map (fun t => t.cluster_buy)
      = [r1.cluster_buy, r2.cluster_buy] := by
  rcases hno with hbrk | hsame
  · simp [detect_clusters, applyFlag, tickerGroup, sortByTradeDate, insertSorted,
      qualifyingWindows, anchorWindow, collectInsiders, insertStr, inQualifyingWindow,
      CLUSTER_WINDOW_DAYS, CLUSTER_MIN_INSIDERS, ht, hne1, hne2, h1, h2, hsort, hbrk]
  · simp [detect_clusters, applyFlag, tickerGroup, sortByTradeDate, insertSorted,
      qualifyingWindows, anchorWindow, collectInsiders, insertStr, inQualifyingWindow,
      CLUSTER_WINDOW_DAYS, CLUSTER_MIN_INSIDERS, ht, hne1, hne2, h1, h2, hsort, hsame]

lemma monthLen_le_31 : ∀ (L : Bool), ∀ m < 13, monthLen L m ≤ 31 := by decide

lemma ord_lt_lex (y m d y' m' d' : Nat)
    (h : validYMD y m d = true) (h' : validYMD y' m' d' = true)
    (hord : toOrdinal y m d < toOrdinal y' m' d') : lexTripleLt y m d y' m' d' := by
  by_contra hn
  have htot : lexTripleLt y m d y' m' d' ∨ (y = y' ∧ m = m' ∧ d = d')
      ∨ lexTripleLt y' m' d' y m d := by
    unfold lexTripleLt; omega
  rcases htot with hlt | ⟨rfl, rfl, rfl⟩ | hgt
  · exact hn hlt
  · omega
  · have := toOrdinal_strict_mono y' m' d' y m d h' h hgt; omega

lemma fmt_sort_lt (y m d y' m' d' : Nat)
    (h : validYMD y m d = true) (h' : validYMD y' m' d' = true)
    (hord : toOrdinal y m d < toOrdinal y' m' d') :
    pyStrLt (fmtYMD y m d) (fmtYMD y' m' d') = true := by
  obtain ⟨hy1, hy2, hm1, hm2, hd1, hd2⟩ := validYMD_bounds y m d h
  obtain ⟨hy1', hy2', hm1', hm2', hd1', hd2'⟩ := validYMD_bounds y' m' d' h'
  have hl1 := monthLen_le_31 (isLeap y) m (by omega)
  have hl2 := monthLen_le_31 (isLeap y') m' (by omega)
  exact fmtYMD_lt y m d y' m' d' hy2 hy2' (by omega) (by omega) (by omega) (by omega)
    (ord_lt_lex y m d y' m' d' h h' hord)

/-- Claim C1: two records, same ticker, canonical ISO trade dates five
days apart, distinct insiders: both get cluster_buy = true. Same pair
with identical insider_name: neither is flagged. Same pair with trade
dates twenty days apart (outside the 14-day window) and distinct
insiders: neither is flagged. -/
theorem detect_clusters_pair_threshold (r1 r2 : Trade) (y1 m1 d1 y2 m2 d2 : Nat)
    (ht : r2.ticker = r1.ticker)
    (hdate1 : r1.trade_date = fmtYMD y1 m1 d1) (hv1 : validYMD y1 m1 d1 = true)
    (hdate2 : r2.trade_date = fmtYMD y2 m2 d2) (hv2 : validYMD y2 m2 d2 = true) :
    ((toOrdinal y2 m2 d2 = toOrdinal y1 m1 d1 + 5
        ∨ toOrdinal y1 m1 d1 = toOrdinal y2 m2 d2 + 5) →
      r1.insider_name ≠ r2.insider_name →
      (detect_clusters [r1, r2]).map (fun t => t.cluster_buy) = [true, true])
    ∧ ((toOrdinal y2 m2 d2 = toOrdinal y1 m1 d1 + 5
        ∨ toOrdinal y1 m1 d1 = toOrdinal y2 m2 d2 + 5) →
      r1.insider_name = r2.insider_name →
      r1.cluster_buy = false → r2.cluster_buy = false →
      (detect_clusters [r1, r2]).map (fun t => t.cluster_buy) = [false, false])
    ∧ ((toOrdinal y2 m2 d2 = toOrdinal y1 m1 d1 + 20
        ∨ toOrdinal y1 m1 d1 = toOrdinal y2 m2 d2 + 20) →
      r1.insider_name ≠ r2.insider_name →
      r1.cluster_buy = false → r2.cluster_buy = false →
      (detect_clusters [r1, r2]).map (fun t => t.cluster_buy) = [false, false]) := by
  have hne1 : ¬ r1.trade_date = "" := by rw [hdate1]; exact fmtYMD_ne_empty y1 m1 d1
  have hne2 : ¬ r2.trade_date = "" := by rw [hdate2]; exact fmtYMD_ne_empty y2 m2 d2
  have h1 : strptimeYMD r1.trade_date = some (toOrdinal y1 m1 d1) := by
    rw [hdate1]; exact strptimeYMD_fmtYMD y1 m1 d1 hv1
  have h2 : strptimeYMD r2.trade_date = some (toOrdinal y2 m2 d2) := by
    rw [hdate2]; exact strptimeYMD_fmtYMD y2 m2 d2 hv2
  have hk1 : sortKey r1 = fmtYMD y1 m1 d1 := by
    rw [sortKey, if_neg hne1, hdate1]
  have hk2 : sortKey r2 = fmtYMD y2 m2 d2 := by
    rw [sortKey, if_neg hne2, hdate2]
  have hsf : toOrdinal y1 m1 d1 < toOrdinal y2 m2 d2 →
      pyStrLt (sortKey r2) (sortKey r1) = false := by
    intro hord
    rw [hk1, hk2]
    have hlt := fmt_sort_lt y1 m1 d1 y2 m2 d2 hv1 hv2 hord
    unfold pyStrLt at hlt ⊢
    exact listLexLt_asymm _ _ hlt
  have hst : toOrdinal y2 m2 d2 < toOrdinal y1 m1 d1 →
      pyStrLt (sortKey r2) (sortKey r1) = true := by
    intro hord
    rw [hk1, hk2]
    exact fmt_sort_lt y2 m2 d2 y1 m1 d1 hv2 hv1 hord
  refine ⟨?_, ?_, ?_⟩
  · intro hfive hneq
    rcases hfive with hA | hB
    · exact detect_pair_eval1 r1 r2 (toOrdinal y1 m1 d1) (toOrdinal y2 m2 d2) ht hne1 hne2
        h1 h2 (hsf (by omega)) (by omega) (by omega) (fun hh => hneq hh.symm)
    · exact detect_pair_eval2 r1 r2 (toOrdinal y1 m1 d1) (toOrdinal y2 m2 d2) ht hne1 hne2
        h1 h2 (hst (by omega)) (by omega) (by omega) hneq
  · intro hfive hsame hcb1 hcb2
    rcases hfive with hA | hB
    · rw [detect_pair_noflag1 r1 r2 (toOrdinal y1 m1 d1) (toOrdinal y2 m2 d2) ht hne1 hne2
        h1 h2 (hsf (by omega)) (Or.inr hsame.symm), hcb1, hcb2]
    · rw [detect_pair_noflag2 r1 r2 (toOrdinal y1 m1 d1) (toOrdinal y2 m2 d2) ht hne1 hne2
        h1 h2 (hst (by omega)) (Or.inr hsame), hcb1, hcb2]
  · intro htwenty hneq hcb1 hcb2
    rcases htwenty with hA | hB
    · rw [detect_pair_noflag1 r1 r2 (toOrdinal y1 m1 d1) (toOrdinal y2 m2 d2) ht hne1 hne2
        h1 h2 (hsf (by omega)) (Or.inl (by omega)), hcb1, hcb2]
    · rw [detect_pair_noflag2 r1 r2 (toOrdinal y1 m1 d1) (toOrdinal y2 m2 d2) ht hne1 hne2
        h1 h2 (hst (by omega)) (Or.inl (by omega)), hcb1, hcb2]

/-- A concrete record for the C1 witness. -/
def clusterA : Trade :=
  { filing_date := "2024-01-06", trade_date := "2024-01-05", ticker := "ZZZ",
    company := "Z Inc", insider_name := "Alice Smith", title := "CEO",
    trade_type := "P - Purchase", price := "2.00", qty := "10", owned := "100",
    delta_own := "1", value := "60000", cluster_buy := false }

/-- Same ticker, five days later, different insider. -/
def clusterB : Trade :=
  { clusterA with trade_date := "2024-01-10", insider_name := "Bob Jones" }

/-- Witness for C1: the concrete five-day pair gets both flags set. -/
theorem detect_clusters_pair_threshold_witness :
    (detect_clusters [clusterA, clusterB]).map (fun t => t.cluster_buy) = [true, true] :=
  (detect_clusters_pair_threshold clusterA clusterB 2024 1 5 2024 1 10
    (by decide) (by decide) (by decide) (by decide) (by decide)).1
    (Or.inl (by decide)) (by decide)
